import Mathlib

/-!
# Verification of the jee_mocks_db mock-exam pipeline

Shallow embedding of the server-side mock assembly / token codec
(`frontend/app/api/sub/[id]/topic/[topic]/route.ts`) and the client-side
exam session machine / scoring engine (`frontend/app/mock/mock-client.tsx`),
with proofs of the specified properties.

JavaScript strings are modelled as `List Char`; JavaScript numbers that the
code only ever uses integrally are modelled as `Int`/`Nat`; the percentage
arithmetic of the scoring engine is modelled over `ℚ` with `round` standing
for `Math.round` (both round half toward positive infinity).
-/

namespace JeeMocks

/-- JavaScript strings, modelled as lists of characters. -/
abbrev Str := List Char

/-- `String.prototype.trim()`: drop leading and trailing whitespace. -/
def jsTrim (s : Str) : Str :=
  ((s.dropWhile Char.isWhitespace).reverse.dropWhile Char.isWhitespace).reverse

/-- `String.prototype.toUpperCase()`, character by character. -/
def jsUpper (s : Str) : Str := s.map Char.toUpper

/-- `norm` from mock-client.tsx: `String(x ?? "").trim().toUpperCase()`. -/
def norm (s : Str) : Str := jsUpper (jsTrim s)

/-- `TIME_LIMIT_SECONDS = 20 * 60` from mock-client.tsx. -/
def TIME_LIMIT_SECONDS : Int := 20 * 60

/-- `MARKS_CORRECT = 4` from mock-client.tsx. -/
def MARKS_CORRECT : Int := 4

/-- `MARKS_WRONG = -1` from mock-client.tsx. -/
def MARKS_WRONG : Int := -1

/-- The `MockQuestion` record (route.ts / mock-client.tsx). -/
structure MockQuestion where
  id : Str
  subject : Str
  chapter : Str
  type : Str
  examHtml : Str
  promptHtml : Str
  options : List (Str × Str)
  correctAnswer : Option Str
  sourceFile : Option Str
  deriving DecidableEq, Repr

/-- The `MockPayload` record (route.ts / mock-client.tsx). -/
structure MockPayload where
  createdAt : Str
  expiresAt : Str
  durationSeconds : Int
  maxQuestions : Int
  chapters : List Str
  questions : List MockQuestion
  deriving DecidableEq, Repr

/-- The scoring verdict of one question (`Verdict` in mock-client.tsx). -/
inductive Verdict where
  | correct
  | wrong
  | unattempted
  deriving DecidableEq, Repr

/-- One row of the per-question analysis (`BreakdownRow` in mock-client.tsx). -/
structure BreakdownRow where
  index : Nat
  id : Str
  chapter : Str
  type : Str
  userAnswer : Str
  correctAnswer : Str
  verdict : Verdict
  marks : Int
  deriving DecidableEq, Repr

/-- The aggregate result (`ComputedResult` in mock-client.tsx). -/
structure ComputedResult where
  totalQuestions : Nat
  attempted : Nat
  correct : Nat
  wrong : Nat
  unattempted : Nat
  marksCorrect : Int
  marksWrong : Int
  netMarks : Int
  maxMarks : Int
  accuracyPercent : ℚ
  scorePercent : ℚ
  breakdown : List BreakdownRow
  deriving DecidableEq, Repr

/-- The classification of one question inside the `computeResult` loop:
`!ua` → unattempted, `ca && norm(ua) === norm(ca)` → correct, else wrong. -/
def questionVerdict (answers : Str → Option Str) (q : MockQuestion) : Verdict :=
  let ua := jsTrim ((answers q.id).getD [])
  let ca := jsTrim (q.correctAnswer.getD [])
  if ua = [] then Verdict.unattempted
  else if ca ≠ [] ∧ norm ua = norm ca then Verdict.correct
  else Verdict.wrong

/-- Marks assigned by the `computeResult` loop per verdict. -/
def verdictMarks : Verdict → Int
  | Verdict.correct => MARKS_CORRECT
  | Verdict.wrong => MARKS_WRONG
  | Verdict.unattempted => 0

/-- Accumulator of the `computeResult` loop. -/
structure ScoreAcc where
  attempted : Nat
  correct : Nat
  wrong : Nat
  unattempted : Nat
  breakdown : List BreakdownRow

/-- The `for` loop of `computeResult`: counter increments and one
`BreakdownRow` per question, in order, with `userAnswer: ua || "-"` and
`correctAnswer: ca || "-"`. -/
def scoreLoop (answers : Str → Option Str) : Nat → List MockQuestion → ScoreAcc
  | _, [] => ⟨0, 0, 0, 0, []⟩
  | i, q :: rest =>
    let ua := jsTrim ((answers q.id).getD [])
    let ca := jsTrim (q.correctAnswer.getD [])
    let v := questionVerdict answers q
    let row : BreakdownRow :=
      { index := i, id := q.id, chapter := q.chapter, type := q.type,
        userAnswer := if ua = [] then ['-'] else ua,
        correctAnswer := if ca = [] then ['-'] else ca,
        verdict := v, marks := verdictMarks v }
    let acc := scoreLoop answers (i + 1) rest
    { attempted := (if v = Verdict.unattempted then 0 else 1) + acc.attempted,
      correct := (if v = Verdict.correct then 1 else 0) + acc.correct,
      wrong := (if v = Verdict.wrong then 1 else 0) + acc.wrong,
      unattempted := (if v = Verdict.unattempted then 1 else 0) + acc.unattempted,
      breakdown := row :: acc.breakdown }

/-- `computeResult` from mock-client.tsx. -/
def computeResult (mock : MockPayload) (answers : Str → Option Str) : ComputedResult :=
  let acc := scoreLoop answers 0 mock.questions
  let marksCorrect : Int := acc.correct * MARKS_CORRECT
  let marksWrong : Int := acc.wrong * MARKS_WRONG
  let netMarks : Int := marksCorrect + marksWrong
  let maxMarks : Int := (mock.questions.length : Int) * MARKS_CORRECT
  let accuracyPercent : ℚ :=
    if acc.attempted > 0 then
      (round (((acc.correct : ℚ) / (acc.attempted : ℚ)) * 1000) : ℤ) / 10
    else 0
  let scorePercentRaw : ℚ :=
    if maxMarks > 0 then ((netMarks : ℚ) / (maxMarks : ℚ)) * 100 else 0
  let scorePercent : ℚ := max 0 ((round (scorePercentRaw * 10) : ℤ) / 10)
  { totalQuestions := mock.questions.length,
    attempted := acc.attempted,
    correct := acc.correct,
    wrong := acc.wrong,
    unattempted := acc.unattempted,
    marksCorrect := marksCorrect,
    marksWrong := marksWrong,
    netMarks := netMarks,
    maxMarks := maxMarks,
    accuracyPercent := accuracyPercent,
    scorePercent := scorePercent,
    breakdown := acc.breakdown }

end JeeMocks

namespace JeeMocks

lemma dropWhile_idem (p : α → Bool) (l : List α) :
    (l.dropWhile p).dropWhile p = l.dropWhile p := by
  induction l with
  | nil => rfl
  | cons a t ih =>
    by_cases h : p a
    · simpa [List.dropWhile_cons_of_pos h] using ih
    · simp [List.dropWhile_cons_of_neg h, h]

lemma length_dropWhile_le' (p : α → Bool) (l : List α) :
    (l.dropWhile p).length ≤ l.length := by
  induction l with
  | nil => simp
  | cons a t ih =>
    by_cases h : p a
    · rw [List.dropWhile_cons_of_pos h]; exact Nat.le_succ_of_le ih
    · rw [List.dropWhile_cons_of_neg h]

lemma dropWhile_reverse_dropWhile_reverse (p : α → Bool) (u : List α)
    (hu : u.dropWhile p = u) :
    ((u.reverse.dropWhile p).reverse).dropWhile p = (u.reverse.dropWhile p).reverse := by
  cases u with
  | nil => simp
  | cons a t =>
    have ha : ¬ p a := by
      intro h
      rw [List.dropWhile_cons_of_pos h] at hu
      have hlen := congrArg List.length hu
      have hle := length_dropWhile_le' p t
      simp only [List.length_cons] at hlen
      omega
    rw [List.reverse_cons, List.dropWhile_append]
    by_cases he : (t.reverse.dropWhile p).isEmpty
    · simp only [he, if_pos]
      simp [List.dropWhile_cons_of_neg ha]
    · simp only [he, if_neg, Bool.false_eq_true, not_false_iff]
      rw [List.reverse_append]
      simp [List.dropWhile_cons_of_neg ha]

lemma jsTrim_idem (s : Str) : jsTrim (jsTrim s) = jsTrim s := by
  have h1 := dropWhile_reverse_dropWhile_reverse Char.isWhitespace
    (s.dropWhile Char.isWhitespace) (dropWhile_idem _ s)
  unfold jsTrim at h1 ⊢
  rw [h1, List.reverse_reverse, dropWhile_idem]

lemma norm_jsTrim (s : Str) : norm (jsTrim s) = norm s := by
  simp [norm, jsTrim_idem]

lemma norm_eq_nil_iff (s : Str) : norm s = [] ↔ jsTrim s = [] := by
  simp [norm, jsUpper]

/-- C4: per-question scoring: an empty trimmed user answer scores 0 marks
with verdict `unattempted`; otherwise, if the trimmed case-folded user
answer equals the trimmed case-folded correct answer the question scores
+4 marks with verdict `correct`; otherwise (including an undefined or
empty correct answer, which can never equal a non-empty answer) it scores
−1 mark with verdict `wrong`. -/
theorem scoring_rule (answers : Str → Option Str) (q : MockQuestion) :
    (jsTrim ((answers q.id).getD []) = [] →
        questionVerdict answers q = Verdict.unattempted
          ∧ verdictMarks (questionVerdict answers q) = 0)
  ∧ (jsTrim ((answers q.id).getD []) ≠ [] →
      norm ((answers q.id).getD []) = norm (q.correctAnswer.getD []) →
        questionVerdict answers q = Verdict.correct
          ∧ verdictMarks (questionVerdict answers q) = 4)
  ∧ (jsTrim ((answers q.id).getD []) ≠ [] →
      norm ((answers q.id).getD []) ≠ norm (q.correctAnswer.getD []) →
        questionVerdict answers q = Verdict.wrong
          ∧ verdictMarks (questionVerdict answers q) = -1) := by
  refine ⟨?_, ?_, ?_⟩
  · intro h
    simp [questionVerdict, h, verdictMarks]
  · intro hne heq
    have hca : jsTrim (q.correctAnswer.getD []) ≠ [] := by
      intro hnil
      have h1 : norm ((answers q.id).getD []) = [] := by
        rw [heq, ← norm_jsTrim, hnil]
        rfl
      exact hne ((norm_eq_nil_iff _).mp h1)
    have heq' : norm (jsTrim ((answers q.id).getD []))
        = norm (jsTrim (q.correctAnswer.getD [])) := by
      rw [norm_jsTrim, norm_jsTrim]; exact heq
    simp [questionVerdict, hne, hca, heq', verdictMarks, MARKS_CORRECT]
  · intro hne hneq
    have hnot : ¬ (jsTrim (q.correctAnswer.getD []) ≠ []
        ∧ norm (jsTrim ((answers q.id).getD []))
          = norm (jsTrim (q.correctAnswer.getD []))) := by
      rintro ⟨h1, h2⟩
      rw [norm_jsTrim, norm_jsTrim] at h2
      exact hneq h2
    simp only [questionVerdict, verdictMarks]
    rw [if_neg hne, if_neg hnot]
    exact ⟨rfl, rfl⟩

/-- A concrete question used to exercise the scoring rule. -/
def sampleQuestion : MockQuestion :=
  { id := ['q', '1'], subject := ['p'], chapter := ['c'],
    type := ['m', 'c', 'q'], examHtml := [], promptHtml := [],
    options := [], correctAnswer := some ['A'], sourceFile := none }

/-- A concrete answer map answering `sampleQuestion` with `" a"`. -/
def sampleAnswers : Str → Option Str :=
  fun s => if s = ['q', '1'] then some [' ', 'a'] else none

theorem scoring_rule_witness :
    questionVerdict sampleAnswers sampleQuestion = Verdict.correct
      ∧ verdictMarks (questionVerdict sampleAnswers sampleQuestion) = 4 :=
  (scoring_rule sampleAnswers sampleQuestion).2.1 (by decide) (by decide)

lemma scoreLoop_correct_add_wrong (answers : Str → Option Str) (i : Nat)
    (qs : List MockQuestion) :
    (scoreLoop answers i qs).correct + (scoreLoop answers i qs).wrong
      = (scoreLoop answers i qs).attempted := by
  induction qs generalizing i with
  | nil => rfl
  | cons q rest ih =>
    simp only [scoreLoop]
    cases hv : questionVerdict answers q <;>
      simp only [hv, reduceCtorEq, if_true, if_false, reduceIte] <;>
      · have := ih (i + 1)
        omega

lemma scoreLoop_attempted_add_unattempted (answers : Str → Option Str) (i : Nat)
    (qs : List MockQuestion) :
    (scoreLoop answers i qs).attempted + (scoreLoop answers i qs).unattempted
      = qs.length := by
  induction qs generalizing i with
  | nil => rfl
  | cons q rest ih =>
    simp only [scoreLoop, List.length_cons]
    cases hv : questionVerdict answers q <;>
      simp only [hv, reduceCtorEq, if_true, if_false, reduceIte] <;>
      · have := ih (i + 1)
        omega

lemma scoreLoop_breakdown_ids (answers : Str → Option Str) (i : Nat)
    (qs : List MockQuestion) :
    (scoreLoop answers i qs).breakdown.map BreakdownRow.id
      = qs.map MockQuestion.id := by
  induction qs generalizing i with
  | nil => rfl
  | cons q rest ih =>
    simp only [scoreLoop, List.map_cons]
    rw [ih (i + 1)]

lemma scoreLoop_breakdown_indices (answers : Str → Option Str) (i : Nat)
    (qs : List MockQuestion) :
    (scoreLoop answers i qs).breakdown.map BreakdownRow.index
      = List.range' i qs.length := by
  induction qs generalizing i with
  | nil => rfl
  | cons q rest ih =>
    simp only [scoreLoop, List.map_cons, List.length_cons, List.range'_succ]
    rw [ih (i + 1)]

/-- C8: for an exam of `N` questions, `netMarks` lies in `[-N, 4N]`, and
`scorePercent` is never negative, even when `netMarks` is. -/
theorem net_marks_bounds (mock : MockPayload) (answers : Str → Option Str) :
    -((mock.questions.length : Int)) ≤ (computeResult mock answers).netMarks
      ∧ (computeResult mock answers).netMarks ≤ 4 * (mock.questions.length : Int)
      ∧ 0 ≤ (computeResult mock answers).scorePercent := by
  have h1 := scoreLoop_correct_add_wrong answers 0 mock.questions
  have h2 := scoreLoop_attempted_add_unattempted answers 0 mock.questions
  simp only [computeResult, MARKS_CORRECT, MARKS_WRONG]
  refine ⟨?_, ?_, ?_⟩
  · omega
  · omega
  · exact le_max_left 0 _

/-- C10: the result breakdown satisfies `attempted + unattempted =
totalQuestions`, `correct + wrong = attempted`, and has exactly one row per
question, in payload order (row `i` carries index `i` and question `i`'s id). -/
theorem result_breakdown_invariants (mock : MockPayload) (answers : Str → Option Str) :
    (computeResult mock answers).attempted + (computeResult mock answers).unattempted
        = (computeResult mock answers).totalQuestions
      ∧ (computeResult mock answers).correct + (computeResult mock answers).wrong
        = (computeResult mock answers).attempted
      ∧ (computeResult mock answers).breakdown.length
        = (computeResult mock answers).totalQuestions
      ∧ (computeResult mock answers).breakdown.map BreakdownRow.id
        = mock.questions.map MockQuestion.id
      ∧ (computeResult mock answers).breakdown.map BreakdownRow.index
        = List.range (computeResult mock answers).totalQuestions := by
  have h1 := scoreLoop_correct_add_wrong answers 0 mock.questions
  have h2 := scoreLoop_attempted_add_unattempted answers 0 mock.questions
  have h3 := scoreLoop_breakdown_ids answers 0 mock.questions
  have h4 := scoreLoop_breakdown_indices answers 0 mock.questions
  have h5 : (scoreLoop answers 0 mock.questions).breakdown.length
      = mock.questions.length := by
    have := congrArg List.length h3
    simpa using this
  simp only [computeResult]
  exact ⟨h2, h1, h5, h3, by rw [h4, List.range_eq_range']⟩

end JeeMocks

namespace JeeMocks

/-- The tick computation of the client timer effect (mock-client.tsx):
`left = TIME_LIMIT_SECONDS * 1000 - (Date.now() - start)`; it does not read
the decoded payload at all. -/
def tickRemainingMs (start now : Int) : Int :=
  TIME_LIMIT_SECONDS * 1000 - (now - start)

/-- The remaining time as the spec prescribes it:
`durationSeconds * 1000 - (now - sessionStart)`, written from the spec's
words for comparison with `tickRemainingMs`. -/
def specRemainingMs (payload : MockPayload) (start now : Int) : Int :=
  payload.durationSeconds * 1000 - (now - start)

/-- A payload whose duration is the maximum the assembly route allows. -/
def payloadHourLong : MockPayload :=
  { createdAt := [], expiresAt := [], durationSeconds := 3600,
    maxQuestions := 10, chapters := [], questions := [] }

/-- C2: the client timer tick uses the hard-coded 20-minute limit
(`TIME_LIMIT_SECONDS`) and ignores the payload's `durationSeconds`: for a
payload with `durationSeconds = 3600`, 1 300 000 ms into the session the code
computes −100 000 ms remaining (and auto-submits) where the specified formula
gives 2 300 000 ms. -/
theorem tick_ignores_duration :
    (∀ start now : Int, tickRemainingMs start now = 1200 * 1000 - (now - start))
      ∧ tickRemainingMs 0 1300000 = -100000
      ∧ specRemainingMs payloadHourLong 0 1300000 = 2300000
      ∧ tickRemainingMs 0 1300000 ≠ specRemainingMs payloadHourLong 0 1300000 := by
  refine ⟨fun start now => rfl, by decide, by decide, by decide⟩

/-- One raw question of a `ChapterRecord` line (route.ts). -/
structure RawQuestion where
  number : Option Int
  question_type : Option Str
  exam_html : Option Str
  text_html : Str
  options_html : Option Str
  explanation_html : Option Str
  deriving DecidableEq, Repr

/-- The string `"mcq"`. -/
def mcqStr : Str := ['m', 'c', 'q']

/-- The string `"value"`. -/
def valueStr : Str := ['v', 'a', 'l', 'u', 'e']

/-- The fallback branch of the `qt` inference (route.ts):
`(q.options_html || "").trim() ? "mcq" : "value"`. -/
def qtFallback (q : RawQuestion) : Str :=
  if jsTrim (q.options_html.getD []) ≠ [] then mcqStr else valueStr

/-- The `qt` inference during mock assembly (route.ts):
`(q.question_type as "mcq" | "value") || ((q.options_html || "").trim() ? "mcq" : "value")`
— a declared non-empty `question_type` short-circuits the fallback. -/
def inferQt (q : RawQuestion) : Str :=
  let qt := q.question_type.getD []
  if qt = [] then qtFallback q else qt

/-- A raw question declaring `question_type: "value"` while carrying
non-empty options markup. -/
def rawQValueWithOptions : RawQuestion :=
  { number := none, question_type := some valueStr, exam_html := none,
    text_html := [], options_html := some ['x'], explanation_html := none }

/-- A raw question with options markup and no declared type. -/
def rawQNoType : RawQuestion :=
  { number := none, question_type := none, exam_html := none,
    text_html := [], options_html := some ['x'], explanation_html := none }

/-- C3 counterexample: a question with a non-empty trimmed options blob is
normalized to type `value`, not `mcq`, because its declared `question_type`
takes precedence over the options test. -/
theorem qt_counterexample :
    jsTrim (rawQValueWithOptions.options_html.getD []) ≠ []
      ∧ inferQt rawQValueWithOptions ≠ mcqStr
      ∧ inferQt rawQValueWithOptions = valueStr := by
  refine ⟨by decide, by decide, by decide⟩

/-- C3 amended: when the raw question declares no (non-empty)
`question_type`, the normalized type is `mcq` exactly when the options
markup blob is non-empty after trimming, and `value` otherwise; a declared
`question_type` takes precedence. -/
theorem qt_inference (q : RawQuestion) (h : q.question_type.getD [] = []) :
    (inferQt q = mcqStr ↔ jsTrim (q.options_html.getD []) ≠ [])
      ∧ (inferQt q = valueStr ↔ jsTrim (q.options_html.getD []) = []) := by
  simp only [inferQt, h, if_pos, qtFallback]
  by_cases hop : jsTrim (q.options_html.getD []) = []
  · simp [hop]
    decide
  · simp [hop]
    decide

theorem qt_inference_witness : inferQt rawQNoType = mcqStr :=
  (qt_inference rawQNoType (by decide)).1.mpr (by decide)

/-- Effective max-question count (route.ts):
`Math.min(10, Math.max(1, Number(searchParams.get("max") ?? "10") || 10))`.
The requested numeric value is modelled as `Option Int`, `none` meaning the
parameter was absent; `Number(x) || 10` sends a requested `0` to the
default. -/
def effectiveMaxQuestions (req : Option Int) : Int :=
  let n := req.getD 10
  let n1 := if n = 0 then 10 else n
  min 10 (max 1 n1)

/-- Effective duration in seconds (route.ts):
`Math.min(60 * 60, Math.max(60, Number(searchParams.get("duration") ?? "1200") || 1200))`. -/
def effectiveDurationSeconds (req : Option Int) : Int :=
  let n := req.getD 1200
  let n1 := if n = 0 then 1200 else n
  min (60 * 60) (max 60 n1)

/-- The clamping rule as the spec states it: the requested value clamped to
the range, with the default only when the parameter is absent. Written from
the spec's words for comparison with the effective rules. -/
def specMaxQuestions (req : Option Int) : Int :=
  match req with
  | none => 10
  | some v => min 10 (max 1 v)

/-- The spec's duration clamp, for comparison. -/
def specDurationSeconds (req : Option Int) : Int :=
  match req with
  | none => 1200
  | some v => min 3600 (max 60 v)

/-- C7 counterexample: a requested value of 0 is sent to the default
(10 questions / 1200 s) instead of being clamped to the lower bound
(1 / 60). -/
theorem clamp_zero_counterexample :
    effectiveMaxQuestions (some 0) = 10 ∧ specMaxQuestions (some 0) = 1
      ∧ effectiveDurationSeconds (some 0) = 1200
      ∧ specDurationSeconds (some 0) = 60 := by
  refine ⟨by decide, by decide, by decide, by decide⟩

/-- C7 amended: for any requested value other than 0 (0 falls back to the
default because `Number(x) || default` treats it as falsy), the effective
max-question count is the requested value clamped to `[1, 10]` (default 10
when absent) and the effective duration is the requested value clamped to
`[60, 3600]` (default 1200 when absent); in particular `max=15` yields 10
and `duration=10` yields 60. -/
theorem clamp_rule (m d : Option Int) (hm : m ≠ some 0) (hd : d ≠ some 0) :
    effectiveMaxQuestions m = specMaxQuestions m
      ∧ effectiveDurationSeconds d = specDurationSeconds d := by
  constructor
  · cases m with
    | none => rfl
    | some v =>
      have hv : ¬ (v = 0) := fun h => hm (by rw [h])
      simp [effectiveMaxQuestions, specMaxQuestions, hv]
  · cases d with
    | none => rfl
    | some v =>
      have hv : ¬ (v = 0) := fun h => hd (by rw [h])
      simp [effectiveDurationSeconds, specDurationSeconds, hv]

theorem clamp_rule_witness :
    effectiveMaxQuestions (some 15) = 10
      ∧ effectiveDurationSeconds (some 10) = 60 := by
  have h := clamp_rule (some 15) (some 10) (by decide) (by decide)
  exact ⟨h.1.trans (by decide), h.2.trans (by decide)⟩

end JeeMocks

namespace JeeMocks

/-- Split a text at `'\n'` (the `\r` of a `\r\n` pair is removed afterwards
by `dropTrailingCR`), as `text.split(/\r?\n/)` does. -/
def splitOnNewline : Str → List Str
  | [] => [[]]
  | c :: rest =>
    match splitOnNewline rest with
    | [] => [[c]]
    | h :: t => if c = '\n' then [] :: h :: t else (c :: h) :: t

/-- Remove the `'\r'` a segment kept from a `\r\n` separator. -/
def dropTrailingCR (l : Str) : Str :=
  if l.getLast? = some '\r' then l.dropLast else l

/-- The line list both `parseJsonl` implementations start from:
`text.split(/\r?\n/).filter((l) => l.trim().length > 0)`. -/
def jsonlLines (text : Str) : List Str :=
  ((splitOnNewline text).map dropTrailingCR).filter
    (fun l => decide (0 < (jsTrim l).length))

/-- Result record of the topic route's `parseJsonl`: parsed records, the
(1-based) line numbers of malformed lines, and the total line count. -/
structure ParsedJsonl (α : Type) where
  data : List α
  parseErrors : List Nat
  totalLines : Nat
  deriving DecidableEq, Repr

/-- The `for` loop of the topic route's `parseJsonl`: each line is
`JSON.parse`d inside `try`, a failure is recorded as a parse error (line
`i + 1`) and the loop continues. `jparse` stands for `JSON.parse` on one
line. -/
def parseLines (jparse : Str → Option α) : Nat → List Str → List α × List Nat
  | _, [] => ([], [])
  | i, l :: rest =>
    let r := parseLines jparse (i + 1) rest
    match jparse l with
    | some v => (v :: r.1, r.2)
    | none => (r.1, (i + 1) :: r.2)

/-- `parseJsonl` of the topic route (route.ts, first file). -/
def parseJsonlTopic (jparse : Str → Option α) (text : Str) : ParsedJsonl α :=
  let lines := jsonlLines text
  let r := parseLines jparse 0 lines
  { data := r.1, parseErrors := r.2, totalLines := lines.length }

/-- The zero-valid check of the topic route's `GET`:
`totalLines > 0 && data.length === 0` makes the request fail with 500. -/
def topicParseFatal (jparse : Str → Option α) (text : Str) : Prop :=
  0 < (parseJsonlTopic jparse text).totalLines
    ∧ (parseJsonlTopic jparse text).data = []

/-- The loop of the mock-assembly route's `parseJsonl`:
`out.push(JSON.parse(lines[i]))` with no `try`/`catch` — the first
malformed line throws (its 1-based number is the error value). -/
def parseLinesStrict (jparse : Str → Option α) : Nat → List Str → Except Nat (List α)
  | _, [] => Except.ok []
  | i, l :: rest =>
    match jparse l with
    | some v => (parseLinesStrict jparse (i + 1) rest).map (fun d => v :: d)
    | none => Except.error (i + 1)

/-- `parseJsonl` of the mock-assembly route (route.ts, second file). -/
def parseJsonlAssembly (jparse : Str → Option α) (text : Str) : Except Nat (List α) :=
  parseLinesStrict jparse 0 (jsonlLines text)

/-- A stand-in for `JSON.parse` on single lines: accepts the line `ok` and
throws on everything else (as `JSON.parse` accepts some lines and throws on
others). -/
def jparseToy : Str → Option Unit :=
  fun s => if s = ['o', 'k'] then some () else none

/-- C5 counterexample: during mock assembly, on the two-line file
`ok\nbad` the assembly route's `parseJsonl` throws at the malformed second
line — fatal to the request — even though the first line parses; the
malformed line is neither recorded nor skipped. -/
theorem assembly_parse_fatal_counterexample :
    parseJsonlAssembly jparseToy ['o', 'k', '\n', 'b', 'a', 'd'] = Except.error 2
      ∧ (parseJsonlTopic jparseToy ['o', 'k', '\n', 'b', 'a', 'd']).data.length = 1 :=
  ⟨rfl, rfl⟩

lemma parseLines_filterMap (jparse : Str → Option α) (i : Nat) (lines : List Str) :
    (parseLines jparse i lines).1 = lines.filterMap jparse := by
  induction lines generalizing i with
  | nil => rfl
  | cons l rest ih =>
    simp only [parseLines, List.filterMap_cons]
    cases h : jparse l <;> simp [h, ih (i + 1)]

lemma parseLines_length (jparse : Str → Option α) (i : Nat) (lines : List Str) :
    (parseLines jparse i lines).1.length + (parseLines jparse i lines).2.length
      = lines.length := by
  induction lines generalizing i with
  | nil => rfl
  | cons l rest ih =>
    simp only [parseLines]
    cases h : jparse l <;> simp only [h] <;>
      · have := ih (i + 1)
        simp only [List.length_cons]
        omega

/-- C5 amended: the tolerant handling holds in the topic route's
`parseJsonl`: the parsed data is exactly the lines that `JSON.parse`
accepts (each malformed line is recorded by number and skipped —
data + recorded errors account for every line), and the topic request
fails on parse grounds exactly when the file has lines but zero of them
parse. In the mock-assembly route, by contrast, `parseJsonl` has no
`try`/`catch` and a single malformed line aborts the request
(see the counterexample). -/
theorem topic_parse_tolerance (jparse : Str → Option α) (text : Str) :
    (parseJsonlTopic jparse text).data = (jsonlLines text).filterMap jparse
      ∧ (parseJsonlTopic jparse text).data.length
          + (parseJsonlTopic jparse text).parseErrors.length
          = (parseJsonlTopic jparse text).totalLines
      ∧ (topicParseFatal jparse text ↔
          jsonlLines text ≠ [] ∧ ∀ l ∈ jsonlLines text, jparse l = none) := by
  refine ⟨parseLines_filterMap jparse 0 (jsonlLines text),
          parseLines_length jparse 0 (jsonlLines text), ?_⟩
  unfold topicParseFatal
  simp only [parseJsonlTopic]
  constructor
  · rintro ⟨hpos, hnil⟩
    rw [parseLines_filterMap] at hnil
    refine ⟨?_, List.filterMap_eq_nil_iff.mp hnil⟩
    intro hlines
    rw [hlines] at hpos
    simp at hpos
  · rintro ⟨hne, hall⟩
    refine ⟨List.length_pos.mpr hne, ?_⟩
    rw [parseLines_filterMap]
    exact List.filterMap_eq_nil_iff.mpr hall

/-- The client session state relevant to the timer effect
(mock-client.tsx). -/
structure SessionState where
  submitted : Bool
  showModal : Bool
  remainingMs : Int
  deriving DecidableEq, Repr

/-- One timer tick: when `submitted` the effect has been torn down
(`if (!token || submitted) return` re-runs on the `submitted` dependency
and clears the interval), so a tick does nothing; otherwise it recomputes
the remaining time and, at `left <= 0`, sets `submitted` and `showModal`
(the auto-submission). The flag records whether this tick invoked the
submission. -/
def tick (start now : Int) (st : SessionState) : SessionState × Bool :=
  if st.submitted then (st, false)
  else
    let left := tickRemainingMs start now
    if left ≤ 0 then
      ({ submitted := true, showModal := true, remainingMs := left }, true)
    else
      ({ st with remainingMs := left }, false)

/-- Run one tick per instant in order, counting submission firings. -/
def runTicks (start : Int) (st : SessionState) : List Int → SessionState × Nat
  | [] => (st, 0)
  | now :: rest =>
    let r1 := tick start now st
    let r2 := runTicks start r1.1 rest
    (r2.1, (if r1.2 then 1 else 0) + r2.2)

lemma tick_submitted (start now : Int) (st : SessionState)
    (h : st.submitted = true) : tick start now st = (st, false) := by
  simp [tick, h]

lemma runTicks_submitted (start : Int) (st : SessionState) (times : List Int)
    (h : st.submitted = true) : runTicks start st times = (st, 0) := by
  induction times with
  | nil => rfl
  | cons now rest ih =>
    simp [runTicks, tick_submitted start now st h, ih]

/-- C9: from an active (unsubmitted) session state, the time-based
transition to `Submitted` fires exactly once over any sequence of ticks:
once when some tick observes the remaining time at or below zero, never
otherwise; and once submitted, every subsequent tick leaves the state
unchanged and never re-invokes submission. -/
theorem auto_submit_once (start : Int) (st : SessionState) (times : List Int)
    (h : st.submitted = false) :
    ((∃ t ∈ times, tickRemainingMs start t ≤ 0) →
        (runTicks start st times).2 = 1)
      ∧ ((∀ t ∈ times, 0 < tickRemainingMs start t) →
        (runTicks start st times).2 = 0)
      ∧ (∀ st' now, st'.submitted = true → tick start now st' = (st', false)) := by
  refine ⟨?_, ?_, fun st' now h' => tick_submitted start now st' h'⟩
  · induction times generalizing st with
    | nil => rintro ⟨t, ht, _⟩; exact absurd ht (List.not_mem_nil t)
    | cons now rest ih =>
      rintro ⟨t, ht, hle⟩
      by_cases hnow : tickRemainingMs start now ≤ 0
      · have hfire : tick start now st =
            ({ submitted := true, showModal := true,
               remainingMs := tickRemainingMs start now }, true) := by
          simp [tick, h, hnow]
        have hrest := runTicks_submitted start
          { submitted := true, showModal := true,
            remainingMs := tickRemainingMs start now } rest rfl
        simp [runTicks, hfire, hrest]
      · have hstep : tick start now st =
            ({ st with remainingMs := tickRemainingMs start now }, false) := by
          simp [tick, h, hnow]
        have hmem : t ∈ rest := by
          rcases List.mem_cons.mp ht with h1 | h1
          · exact absurd (h1 ▸ hle) hnow
          · exact h1
        simp only [runTicks, hstep, if_neg Bool.false_ne_true, Nat.zero_add]
        exact ih { st with remainingMs := tickRemainingMs start now } h ⟨t, hmem, hle⟩
  · induction times generalizing st with
    | nil => intro _; rfl
    | cons now rest ih =>
      intro hall
      have hnow : 0 < tickRemainingMs start now := hall now (List.mem_cons_self now rest)
      have hstep : tick start now st =
          ({ st with remainingMs := tickRemainingMs start now }, false) := by
        simp [tick, h]
        omega
      simp only [runTicks, hstep, if_neg Bool.false_ne_true, Nat.zero_add]
      exact ih { st with remainingMs := tickRemainingMs start now } h
        (fun t htt => hall t (List.mem_cons_of_mem now htt))

theorem auto_submit_once_witness :
    (runTicks 0 ⟨false, false, 1200000⟩ [100, 1300000, 1300500]).2 = 1 :=
  (auto_submit_once 0 ⟨false, false, 1200000⟩ [100, 1300000, 1300500] rfl).1
    (by decide)

end JeeMocks

namespace JeeMocks

open scoped List

/-- The destructuring swap `[a[i], a[j]] = [a[j], a[i]]` inside
`randomPick`'s shuffle loop; indices are always in range there. -/
def swapL (l : List α) (i j : Nat) : List α :=
  match l[i]?, l[j]? with
  | some a, some b => (l.set i b).set j a
  | _, _ => l

/-- The Fisher–Yates loop of `randomPick` (route.ts):
`for (i = a.length - 1; i > 0; i--)` swap `a[i]` and `a[j]` with
`j = Math.floor(Math.random() * (i + 1))`; the draws are supplied by the
oracle `rnd` (`Math.random() < 1` gives `rnd i ≤ i`). -/
def fyLoop (rnd : Nat → Nat) : Nat → List α → List α
  | 0, a => a
  | i + 1, a => fyLoop rnd i (swapL a (i + 1) (rnd (i + 1)))

/-- `randomPick` (route.ts): Fisher–Yates shuffle of a copy, then
`slice(0, Math.min(n, a.length))`. -/
def randomPick (arr : List α) (n : Nat) (rnd : Nat → Nat) : List α :=
  (fyLoop rnd (arr.length - 1) arr).take (min n arr.length)

lemma get_cons_set_perm : ∀ (t : List α) (m : Nat) (a : α) (h : m < t.length),
    t.get ⟨m, h⟩ :: t.set m a ~ a :: t
  | b :: t', 0, a, _ => by simpa using List.Perm.swap a b t'
  | b :: t', m + 1, a, h => by
    have hm : m < t'.length := Nat.lt_of_succ_lt_succ (by simpa using h)
    have step1 : t'.get ⟨m, hm⟩ :: b :: t'.set m a
        ~ b :: t'.get ⟨m, hm⟩ :: t'.set m a := List.Perm.swap b _ _
    have step2 : b :: t'.get ⟨m, hm⟩ :: t'.set m a ~ b :: a :: t' :=
      (get_cons_set_perm t' m a hm).cons b
    have step3 : b :: a :: t' ~ a :: b :: t' := List.Perm.swap a b t'
    simpa using (step1.trans step2).trans step3

lemma set_set_perm : ∀ (l : List α) (i j : Nat) (hi : i < l.length) (hj : j < l.length),
    (l.set i (l.get ⟨j, hj⟩)).set j (l.get ⟨i, hi⟩) ~ l
  | _ :: _, 0, 0, _, _ => by simp
  | x :: t, 0, j + 1, hi, hj => by
    have hj' : j < t.length := Nat.lt_of_succ_lt_succ (by simpa using hj)
    simpa using get_cons_set_perm t j x hj'
  | x :: t, i + 1, 0, hi, hj => by
    have hi' : i < t.length := Nat.lt_of_succ_lt_succ (by simpa using hi)
    simpa using get_cons_set_perm t i x hi'
  | x :: t, i + 1, j + 1, hi, hj => by
    have hi' : i < t.length := Nat.lt_of_succ_lt_succ (by simpa using hi)
    have hj' : j < t.length := Nat.lt_of_succ_lt_succ (by simpa using hj)
    simpa using (set_set_perm t i j hi' hj').cons x

lemma swapL_perm (l : List α) (i j : Nat) : swapL l i j ~ l := by
  unfold swapL
  cases hi : l[i]? with
  | none => exact List.Perm.refl l
  | some a =>
    cases hj : l[j]? with
    | none => exact List.Perm.refl l
    | some b =>
      have hi' : i < l.length := by
        by_contra hc
        rw [List.getElem?_eq_none (Nat.le_of_not_lt hc)] at hi
        exact Option.noConfusion hi
      have hj' : j < l.length := by
        by_contra hc
        rw [List.getElem?_eq_none (Nat.le_of_not_lt hc)] at hj
        exact Option.noConfusion hj
      have ha : a = l.get ⟨i, hi'⟩ := by
        rw [List.getElem?_eq_getElem hi'] at hi
        cases hi
        rfl
      have hb : b = l.get ⟨j, hj'⟩ := by
        rw [List.getElem?_eq_getElem hj'] at hj
        cases hj
        rfl
      rw [ha, hb]
      exact set_set_perm l i j hi' hj'

lemma fyLoop_perm (rnd : Nat → Nat) : ∀ (i : Nat) (l : List α), fyLoop rnd i l ~ l
  | 0, l => List.Perm.refl l
  | i + 1, l =>
    (fyLoop_perm rnd i (swapL l (i + 1) (rnd (i + 1)))).trans
      (swapL_perm l (i + 1) (rnd (i + 1)))

/-- C6: the sampler returns at most `min(requested, poolSize)` questions,
every sampled question comes from the pool, and — the pool's ids being
distinct — no question id appears twice in one sampled exam (the sample is
a prefix of a Fisher–Yates permutation of the pool, i.e. drawn without
replacement). -/
theorem randomPick_bounded_nodup (pool : List MockQuestion) (n : Nat)
    (rnd : Nat → Nat) (hnd : (pool.map MockQuestion.id).Nodup) :
    (randomPick pool n rnd).length ≤ min n pool.length
      ∧ (∀ q ∈ randomPick pool n rnd, q ∈ pool)
      ∧ ((randomPick pool n rnd).map MockQuestion.id).Nodup := by
  have hperm : fyLoop rnd (pool.length - 1) pool ~ pool :=
    fyLoop_perm rnd (pool.length - 1) pool
  have hsub : randomPick pool n rnd <+ fyLoop rnd (pool.length - 1) pool :=
    List.take_sublist _ _
  refine ⟨?_, ?_, ?_⟩
  · simp [randomPick]
  · intro q hq
    exact hperm.mem_iff.mp (hsub.subset hq)
  · have h1 : ((fyLoop rnd (pool.length - 1) pool).map MockQuestion.id).Nodup :=
      (hperm.map MockQuestion.id).nodup_iff.mpr hnd
    exact (hsub.map MockQuestion.id).nodup h1

/-- A two-question pool with distinct ids. -/
def samplePool : List MockQuestion :=
  [{ sampleQuestion with id := ['a'] }, { sampleQuestion with id := ['b'] }]

theorem randomPick_bounded_nodup_witness :
    (randomPick samplePool 5 (fun _ => 0)).length ≤ min 5 samplePool.length
      ∧ (∀ q ∈ randomPick samplePool 5 (fun _ => 0), q ∈ samplePool)
      ∧ ((randomPick samplePool 5 (fun _ => 0)).map MockQuestion.id).Nodup :=
  randomPick_bounded_nodup samplePool 5 (fun _ => 0) (by decide)

end JeeMocks

namespace JeeMocks

/-- The standard base64 alphabet, as `Buffer.toString("base64")` and `atob`
use it. -/
def b64Alphabet : Str :=
  ("ABCDEFGHIJKLMNOPQRSTUVWXYZabcdefghijklmnopqrstuvwxyz0123456789+/").toList

/-- The base64 character of a 6-bit value. -/
def b64char (k : Nat) : Char := b64Alphabet.getD k 'A'

/-- The 6-bit value of a base64 character (`atob`'s alphabet lookup). -/
def b64index (c : Char) : Option Nat := b64Alphabet.findIdx? (fun d => d == c)

lemma b64index_b64char : ∀ k < 64, b64index (b64char k) = some k := by decide

lemma b64char_mem (k : Nat) : b64char k ∈ b64Alphabet := by
  unfold b64char
  by_cases h : k < b64Alphabet.length
  · rw [List.getD_eq_getElem _ _ h]
    exact List.getElem_mem h
  · rw [List.getD_eq_default _ _ (Nat.le_of_not_lt h)]
    decide

lemma pad_not_mem_b64Alphabet : ('=' ∈ b64Alphabet) = False := by decide

lemma b64char_ne_pad (k : Nat) : b64char k ≠ '=' := by
  intro h
  have hm := b64char_mem k
  rw [h, pad_not_mem_b64Alphabet] at hm
  exact hm

end JeeMocks

namespace JeeMocks

/-- Standard base64 encoding of a byte list, with padding, three bytes per
four characters (as `buf.toString("base64")`). -/
def b64encode : List Nat → Str
  | [] => []
  | [b1] => [b64char (b1 / 4), b64char (b1 % 4 * 16), '=', '=']
  | [b1, b2] =>
    [b64char (b1 / 4), b64char (b1 % 4 * 16 + b2 / 16), b64char (b2 % 16 * 4), '=']
  | b1 :: b2 :: b3 :: rest =>
    b64char (b1 / 4) :: b64char (b1 % 4 * 16 + b2 / 16)
      :: b64char (b2 % 16 * 4 + b3 / 64) :: b64char (b3 % 64) :: b64encode rest

/-- `atob`: base64 decoding of four-character groups into bytes; `=`
padding is allowed only at the end and surplus bits are discarded, as
`atob` does. -/
def b64decode : Str → Option (List Nat)
  | [] => some []
  | c1 :: c2 :: c3 :: c4 :: rest =>
    (b64index c1).bind fun i1 =>
    (b64index c2).bind fun i2 =>
    if c3 = '=' then
      if c4 = '=' ∧ rest = [] then some [i1 * 4 + i2 / 16] else none
    else
      (b64index c3).bind fun i3 =>
      if c4 = '=' then
        if rest = [] then some [i1 * 4 + i2 / 16, i2 % 16 * 16 + i3 / 4] else none
      else
        (b64index c4).bind fun i4 =>
        (b64decode rest).map fun ds =>
          (i1 * 4 + i2 / 16) :: (i2 % 16 * 16 + i3 / 4) :: (i3 % 4 * 64 + i4) :: ds
  | _ => none

/-- `.replace(/\+/g, "-").replace(/\//g, "_")` on one character
(route.ts `base64urlFromBuffer`). -/
def urlSubChar (c : Char) : Char :=
  if c = '+' then '-' else if c = '/' then '_' else c

/-- The client's inverse substitution on one character: hyphen back to
`+`, underscore back to `/` (mock-client.tsx `base64urlToUint8Array`). -/
def urlUnsubChar (c : Char) : Char :=
  if c = '-' then '+' else if c = '_' then '/' else c

/-- `base64urlFromBuffer` (route.ts): standard base64, `+`→`-`, `/`→`_`,
then `.replace(/=+$/g, "")` strips the trailing padding. -/
def base64urlFromBytes (bs : List Nat) : Str :=
  ((((b64encode bs).map urlSubChar).reverse.dropWhile (fun c => c == '=')).reverse)

/-- The re-padding of `base64urlToUint8Array` (mock-client.tsx):
`b64url + "===".slice((b64url.length + 3) % 4)`. -/
def rePad (t : Str) : Str :=
  t ++ List.drop ((t.length + 3) % 4) ['=', '=', '=']

/-- `base64urlToUint8Array` (mock-client.tsx): undo the alphabet
substitution, re-pad, then `atob` to bytes. -/
def base64urlToBytes (t : Str) : Option (List Nat) :=
  b64decode (rePad (t.map urlUnsubChar))

/-- The encode side of the token codec (route.ts `GET`):
`JSON.stringify` → `gzipSync` → `base64urlFromBuffer`; `stringify` and
`gzip` stand for the external `JSON.stringify` (to UTF-8 bytes) and
`zlib.gzipSync`. -/
def encodeToken (stringify : α → List Nat) (gzip : List Nat → List Nat)
    (p : α) : Str :=
  base64urlFromBytes (gzip (stringify p))

/-- The decode side of the token codec (mock-client.tsx `gunzipToJson`):
base64url → bytes → `DecompressionStream("gzip")` → `JSON.parse`;
`gunzip` and `parse` stand for the external collaborators, returning
`none` where the originals throw. -/
def decodeToken (parse : List Nat → Option α) (gunzip : List Nat → Option (List Nat))
    (t : Str) : Option α :=
  (base64urlToBytes t).bind fun bs => (gunzip bs).bind parse

end JeeMocks

namespace JeeMocks

lemma b64decode_b64encode : ∀ bs : List Nat, (∀ b ∈ bs, b < 256) →
    b64decode (b64encode bs) = some bs
  | [], _ => rfl
  | [b1], h => by
    have hb1 : b1 < 256 := h b1 (by simp)
    simp only [b64encode, b64decode]
    rw [b64index_b64char (b1 / 4) (by omega),
        b64index_b64char (b1 % 4 * 16) (by omega)]
    simp [b64char_ne_pad]
    omega
  | [b1, b2], h => by
    have hb1 : b1 < 256 := h b1 (by simp)
    have hb2 : b2 < 256 := h b2 (by simp)
    simp only [b64encode, b64decode]
    rw [b64index_b64char (b1 / 4) (by omega),
        b64index_b64char (b1 % 4 * 16 + b2 / 16) (by omega),
        b64index_b64char (b2 % 16 * 4) (by omega)]
    simp [b64char_ne_pad]
    omega
  | b1 :: b2 :: b3 :: rest, h => by
    have hb1 : b1 < 256 := h b1 (by simp)
    have hb2 : b2 < 256 := h b2 (by simp)
    have hb3 : b3 < 256 := h b3 (by simp)
    have ih := b64decode_b64encode rest (fun b hb => h b (by simp [hb]))
    simp only [b64encode, b64decode]
    rw [b64index_b64char (b1 / 4) (by omega),
        b64index_b64char (b1 % 4 * 16 + b2 / 16) (by omega),
        b64index_b64char (b2 % 16 * 4 + b3 / 64) (by omega),
        b64index_b64char (b3 % 64) (by omega)]
    simp [b64char_ne_pad, ih]
    omega

lemma b64encode_shape : ∀ bs : List Nat, ∃ body p,
    b64encode bs = body ++ List.replicate p '='
      ∧ p ≤ 2 ∧ (∀ c ∈ body, c ∈ b64Alphabet) ∧ (body.length + p) % 4 = 0
  | [] => ⟨[], 0, rfl, by omega, by simp, by decide⟩
  | [b1] => by
    refine ⟨[b64char (b1 / 4), b64char (b1 % 4 * 16)], 2, rfl, by omega, ?_, by simp⟩
    intro c hc
    simp only [List.mem_cons, List.not_mem_nil, or_false] at hc
    rcases hc with rfl | rfl
    · exact b64char_mem _
    · exact b64char_mem _
  | [b1, b2] => by
    refine ⟨[b64char (b1 / 4), b64char (b1 % 4 * 16 + b2 / 16),
        b64char (b2 % 16 * 4)], 1, rfl, by omega, ?_, by simp⟩
    intro c hc
    simp only [List.mem_cons, List.not_mem_nil, or_false] at hc
    rcases hc with rfl | rfl | rfl
    · exact b64char_mem _
    · exact b64char_mem _
    · exact b64char_mem _
  | b1 :: b2 :: b3 :: rest => by
    obtain ⟨body, p, he, hp, hmem, hlen⟩ := b64encode_shape rest
    refine ⟨b64char (b1 / 4) :: b64char (b1 % 4 * 16 + b2 / 16)
        :: b64char (b2 % 16 * 4 + b3 / 64) :: b64char (b3 % 64) :: body, p, ?_, hp, ?_, ?_⟩
    · simp only [b64encode, he, List.cons_append]
    · intro c hc
      simp only [List.mem_cons] at hc
      rcases hc with rfl | rfl | rfl | rfl | hc
      · exact b64char_mem _
      · exact b64char_mem _
      · exact b64char_mem _
      · exact b64char_mem _
      · exact hmem c hc
    · simp only [List.length_cons]
      omega

lemma dropWhile_eq_self_of_not (p : α → Bool) (l : List α) (h : ∀ c ∈ l, ¬ p c) :
    l.dropWhile p = l := by
  cases l with
  | nil => rfl
  | cons a t => exact List.dropWhile_cons_of_neg (h a (by simp))

lemma dropWhile_beq_replicate (p : Nat) :
    (List.replicate p '=').dropWhile (fun c => c == '=') = [] := by
  induction p with
  | zero => rfl
  | succ n ih =>
    rw [List.replicate_succ, List.dropWhile_cons_of_pos (by simp)]
    exact ih

lemma urlSub_alphabet : ∀ c ∈ b64Alphabet, urlUnsubChar (urlSubChar c) = c := by
  decide

lemma urlSub_ne_pad : ∀ c ∈ b64Alphabet, (urlSubChar c == '=') = false := by
  decide

lemma urlSubChar_pad : urlSubChar '=' = '=' := by decide

lemma base64url_roundtrip (bs : List Nat) (hb : ∀ b ∈ bs, b < 256) :
    base64urlToBytes (base64urlFromBytes bs) = some bs := by
  obtain ⟨body, p, he, hp, hmem, hlen⟩ := b64encode_shape bs
  have hmap_pad : (List.replicate p '=').map urlSubChar = List.replicate p '=' := by
    rw [List.map_replicate, urlSubChar_pad]
  have h1 : base64urlFromBytes bs = body.map urlSubChar := by
    unfold base64urlFromBytes
    rw [he, List.map_append, hmap_pad, List.reverse_append, List.reverse_replicate,
        List.dropWhile_append, dropWhile_beq_replicate p]
    simp only [List.isEmpty_nil, if_true]
    rw [dropWhile_eq_self_of_not _ _ ?_, List.reverse_reverse]
    intro c hc
    rw [List.mem_reverse, List.mem_map] at hc
    obtain ⟨d, hd, rfl⟩ := hc
    simp only [urlSub_ne_pad d (hmem d hd)]
    exact Bool.false_ne_true
  have h2 : (body.map urlSubChar).map urlUnsubChar = body := by
    rw [List.map_map]
    have hpt : ∀ c ∈ body, (urlUnsubChar ∘ urlSubChar) c = c :=
      fun c hc => urlSub_alphabet c (hmem c hc)
    exact (List.map_congr_left hpt).trans (List.map_id body)
  have h3 : rePad body = body ++ List.replicate p '=' := by
    unfold rePad
    have hp3 : p = 0 ∨ p = 1 ∨ p = 2 := by omega
    rcases hp3 with rfl | rfl | rfl
    · have h4 : (body.length + 3) % 4 = 3 := by omega
      rw [h4]
      simp
    · have h4 : (body.length + 3) % 4 = 2 := by omega
      rw [h4]
      rfl
    · have h4 : (body.length + 3) % 4 = 1 := by omega
      rw [h4]
      rfl
  unfold base64urlToBytes
  rw [h1, h2, h3, ← he]
  exact b64decode_b64encode bs hb

/-- C1: the token codec round-trips: encoding a payload (serialize,
gzip, base64url with `+`→`-`, `/`→`_` and padding stripped) and then
decoding the token (reverse the substitution, re-pad, base64-decode,
gunzip, parse) yields the original payload, for any payload type —
in particular for `MockPayload` — whenever the external serializer/parser
and gzip/gunzip pairs invert each other and gzip emits bytes. -/
theorem decode_encode_roundtrip {α : Type} (stringify : α → List Nat)
    (parse : List Nat → Option α) (gzip : List Nat → List Nat)
    (gunzip : List Nat → Option (List Nat))
    (hparse : ∀ p, parse (stringify p) = some p)
    (hgz : ∀ bs, gunzip (gzip bs) = some bs)
    (hbyte : ∀ p b, b ∈ gzip (stringify p) → b < 256)
    (p : α) :
    decodeToken parse gunzip (encodeToken stringify gzip p) = some p := by
  unfold decodeToken encodeToken
  rw [base64url_roundtrip (gzip (stringify p)) (fun b hbm => hbyte p b hbm)]
  simp only [Option.some_bind, hgz, hparse]

theorem decode_encode_roundtrip_witness :
    decodeToken (fun bs => if bs = [72, 105] then some () else none)
        (fun bs => some bs)
        (encodeToken (fun _ => [72, 105]) (fun bs => bs) ())
      = some () :=
  decode_encode_roundtrip (fun _ => [72, 105])
    (fun bs => if bs = [72, 105] then some () else none)
    (fun bs => bs) (fun bs => some bs)
    (fun _ => rfl) (fun _ => rfl)
    (fun _ b hb => by
      simp only [List.mem_cons, List.not_mem_nil, or_false] at hb
      rcases hb with rfl | rfl <;> omega)
    ()

end JeeMocks
